import Mathlib

/-!
Verification of the bytebeat expression compiler and surrounding glue code.

The definitions below are a shallow embedding of the Rust sources:
  * `src/parser/lex.rs`   — the lexer (`Lexer::next`, `Lexer::lex_number`),
  * `src/parser/parse.rs` — the Pratt parser (`Parser::parse_bp`, `Parser::parse`),
  * `src/parser.rs`       — `Beat::compile`, `Beat::eval`, `Beat::eval_node`,
  * `src/event.rs`        — `EventHandler::new_beat`,
  * `src/audio.rs`        — the `on_process` frame loop and the command handler,
  * `src/app/input.rs`    — `LineInput`.

Machine integers (`i32`) are modelled as `Int` normalised into `[-2^31, 2^31)`
by `wrap32`; `u8` results are `Nat` values below `256`.  General recursion in
the Rust parser is modelled with an explicit fuel parameter (the parser
consumes at least one token before every recursive call, so any fuel larger
than twice the input length makes the embedding agree with the source; the
theorems about arena invariants below hold for every fuel value).
-/

/-- Two's-complement normalisation into the `i32` range `[-2^31, 2^31)`. -/
def wrap32 (x : Int) : Int := (x + 2 ^ 31) % 2 ^ 32 - 2 ^ 31

/-- `src/parser.rs` `Span`: `(line, start, end)` columns, inclusive on both ends. -/
structure Span where
  line : Nat
  start : Nat
  stop : Nat
deriving DecidableEq

/-- `src/parser.rs` `Spanned<T>`: a payload together with its source span. -/
structure Spanned (α : Type) where
  node : α
  span : Span
deriving DecidableEq

/-- `src/parser.rs` `Operator`. -/
inductive Operator where
  | mul | div | plus | minus | mod
  | lparen | rparen
  | rsh | lsh | and | or | bitXor | bitNot
  | logAnd | logOr | logNot
  | eq | ne | gt | lt | ge | le
  | question | colon
deriving DecidableEq

/-- `src/parser.rs` `LexError`.  `ImproperNumber` carries the radix; the Rust
value also carries the `ParseIntError` detail, which no claim inspects. -/
inductive LexError where
  | SolitaryEquals
  | UnexpectedChar (c : Char)
  | ImproperNumber (radix : Int)
deriving DecidableEq

/-- `src/parser.rs` `Token` (`Variable` is spelled `var` here). -/
inductive Token where
  | var
  | num (n : Int)
  | op (o : Operator)
  | err (e : LexError)
  | eof
deriving DecidableEq

/-- `src/parser.rs` `NodeId`. -/
abbrev NodeId := Nat

/-- `src/parser.rs` `ASTNode`. -/
inductive ASTNode where
  | Literal (n : Int)
  | Variable
  | Binary (o : Operator) (l : NodeId) (r : NodeId)
  | Ternary (c : NodeId) (t : NodeId) (f : NodeId)
  | Error (sp : Span)
deriving DecidableEq

/-- `src/parser.rs` `ParseError`. -/
inductive ParseError where
  | UnexpectedEof (sp : Span)
  | ExpectedOperator (t : Token) (sp : Span)
  | UnmatchedParenthesis (sp : Span)
  | UnexpectedPrefix (o : Operator) (sp : Span)
  | ExpectedTernaryColon (sp : Span)
  | LexError (e : LexError) (sp : Span)
deriving DecidableEq

/-! ## Lexer (`src/parser/lex.rs`) -/

/-- The state of `Lexer`: remaining characters plus line/column counters. -/
structure LexState where
  chars : List Char
  line : Nat
  col : Nat
deriving DecidableEq

/-- Rust `char::is_whitespace` (the Unicode `White_Space` property). -/
def rustIsWhitespace (c : Char) : Bool :=
  c = '\t' || c = '\n' || c.toNat = 0xB || c.toNat = 0xC || c = '\r' || c = ' ' ||
  c.toNat = 0x85 || c.toNat = 0xA0 || c.toNat = 0x1680 ||
  (0x2000 ≤ c.toNat && c.toNat ≤ 0x200A) ||
  c.toNat = 0x2028 || c.toNat = 0x2029 || c.toNat = 0x202F || c.toNat = 0x205F ||
  c.toNat = 0x3000

/-- `Lexer::bump`, state part: consume one character, updating line/column
(`\n` starts a new line, `\r` leaves the column untouched). -/
def bumpSt (s : LexState) : LexState :=
  ⟨s.chars.tail,
   if s.chars.head? = some '\n' then s.line + 1 else s.line,
   if s.chars.head? = some '\n' then 0
   else if s.chars.head? = some '\r' then s.col
   else s.col + 1⟩

/-- The loop of `Lexer::skip_whitespace`, with the remaining character count
as a structural bound (every iteration consumes one character). -/
def skipWsGo : Nat → LexState → LexState
  | 0, s => s
  | fuel + 1, s =>
    match s.chars with
    | [] => s
    | c :: _ =>
      if rustIsWhitespace c || c = '\r' || c = '\n' then skipWsGo fuel (bumpSt s)
      else s

/-- `Lexer::skip_whitespace`. -/
def skipWs (s : LexState) : LexState := skipWsGo s.chars.length s

/-- Rust `char::to_digit` (value part): digit value of `c`, if any. -/
def charDigitVal (c : Char) : Option Nat :=
  if '0' ≤ c ∧ c ≤ '9' then some (c.toNat - '0'.toNat)
  else if 'a' ≤ c ∧ c ≤ 'z' then some (c.toNat - 'a'.toNat + 10)
  else if 'A' ≤ c ∧ c ≤ 'Z' then some (c.toNat - 'A'.toNat + 10)
  else none

/-- Rust `char::is_digit(radix)`. -/
def isDigitRadix (c : Char) (radix : Nat) : Bool :=
  match charDigitVal c with
  | some v => v < radix
  | none => false

/-- The digit-collection loop at the top of `Lexer::lex_number`, with the
remaining character count as a structural bound (every iteration consumes one
character). -/
def takeDigitsGo (radix : Nat) : Nat → LexState → List Char × LexState
  | 0, s => ([], s)
  | fuel + 1, s =>
    match s.chars with
    | [] => ([], s)
    | c :: _ =>
      if isDigitRadix c radix then
        let p := takeDigitsGo radix fuel (bumpSt s)
        (c :: p.1, p.2)
      else ([], s)

/-- The digit-collection loop at the top of `Lexer::lex_number`. -/
def takeDigits (radix : Nat) (s : LexState) : List Char × LexState :=
  takeDigitsGo radix s.chars.length s

/-- Value of a digit string in the given radix. -/
def digitsVal (radix : Nat) (ds : List Char) : Nat :=
  ds.foldl (fun acc c => acc * radix + ((charDigitVal c).getD 0)) 0

/-- The `i32::from_str_radix` post-processing in `Lexer::lex_number`:
empty digits give `ImproperNumber`, positive overflow saturates to `i32::MAX`. -/
def mkNumberToken (radix : Nat) (ds : List Char) : Token :=
  if ds = [] then Token.err (LexError.ImproperNumber radix)
  else if 2147483647 < digitsVal radix ds then Token.num 2147483647
  else Token.num (digitsVal radix ds)

/-- `Lexer::lex_number`. -/
def lexNumber (radix : Nat) (s : LexState) : Token × LexState :=
  let p := takeDigits radix s
  (mkNumberToken radix p.1, p.2)

/-- The big character dispatch inside `Lexer::next` (whitespace already
skipped).  Returns the token and the state after consuming it. -/
def lexToken (s : LexState) : Token × LexState :=
  match s.chars.head? with
  | none => (Token.eof, s)
  | some c =>
    match c with
    | '+' => (Token.op Operator.plus, bumpSt s)
    | '-' => (Token.op Operator.minus, bumpSt s)
    | '/' => (Token.op Operator.div, bumpSt s)
    | '*' => (Token.op Operator.mul, bumpSt s)
    | '%' => (Token.op Operator.mod, bumpSt s)
    | '&' =>
      let s1 := bumpSt s
      if s1.chars.head? = some '&' then (Token.op Operator.logAnd, bumpSt s1)
      else (Token.op Operator.and, s1)
    | '|' =>
      let s1 := bumpSt s
      if s1.chars.head? = some '|' then (Token.op Operator.logOr, bumpSt s1)
      else (Token.op Operator.or, s1)
    | '^' => (Token.op Operator.bitXor, bumpSt s)
    | '~' => (Token.op Operator.bitNot, bumpSt s)
    | '!' =>
      let s1 := bumpSt s
      if s1.chars.head? = some '=' then (Token.op Operator.ne, bumpSt s1)
      else (Token.op Operator.logNot, s1)
    | '=' =>
      let s1 := bumpSt s
      if s1.chars.head? = some '=' then (Token.op Operator.eq, bumpSt s1)
      else (Token.err LexError.SolitaryEquals, s1)
    | '?' => (Token.op Operator.question, bumpSt s)
    | ':' => (Token.op Operator.colon, bumpSt s)
    | '(' => (Token.op Operator.lparen, bumpSt s)
    | ')' => (Token.op Operator.rparen, bumpSt s)
    | '<' =>
      let s1 := bumpSt s
      match s1.chars.head? with
      | some next =>
        if next = '<' then (Token.op Operator.lsh, bumpSt s1)
        else if next = '=' then (Token.op Operator.le, bumpSt s1)
        else (Token.op Operator.lt, s1)
      | none => (Token.op Operator.lt, s1)
    | '>' =>
      let s1 := bumpSt s
      match s1.chars.head? with
      | some next =>
        if next = '>' then (Token.op Operator.rsh, bumpSt s1)
        else if next = '=' then (Token.op Operator.ge, bumpSt s1)
        else (Token.op Operator.gt, s1)
      | none => (Token.op Operator.gt, s1)
    | '0' =>
      let s1 := bumpSt s
      match s1.chars.head? with
      | some next =>
        if next = 'x' then lexNumber 16 (bumpSt s1)
        else if next = 'b' then lexNumber 2 (bumpSt s1)
        else if next.isDigit then lexNumber 8 s1
        else (Token.num 0, s1)
      | none => (Token.num 0, s1)
    | 't' => (Token.var, bumpSt s)
    | other =>
      if '1' ≤ other ∧ other ≤ '9' then lexNumber 10 s
      else (Token.err (LexError.UnexpectedChar other), bumpSt s)

/-- `Lexer::next`: skip whitespace, lex one token, attach its span. -/
def lexNext (s0 : LexState) : Spanned Token × LexState :=
  let s := skipWs s0
  let p := lexToken s
  let endCol := if s.col < p.2.col then p.2.col - 1 else s.col
  (⟨p.1, ⟨s.line, s.col, endCol⟩⟩, p.2)

/-! ## Parser (`src/parser/parse.rs`) -/

/-- The state of `Parser`: the wrapped lexer, the one-token lookahead, the
node arena and the accumulated error list. -/
structure PState where
  lexer : LexState
  current : Spanned Token
  arena : List ASTNode
  errors : List ParseError
deriving DecidableEq

/-- `Parser::new`. -/
def pInit (src : String) : PState :=
  let l0 : LexState := ⟨src.data, 0, 0⟩
  ⟨(lexNext l0).2, (lexNext l0).1, [], []⟩

/-- `Parser::advance`. -/
def advance (s : PState) : PState :=
  { s with current := (lexNext s.lexer).1, lexer := (lexNext s.lexer).2 }

/-- `Parser::push_node`, state part; the returned id is the arena length
before the push. -/
def pushNode (s : PState) (n : ASTNode) : PState :=
  { s with arena := s.arena ++ [n] }

/-- `self.errors.push(e)`. -/
def pushError (s : PState) (e : ParseError) : PState :=
  { s with errors := s.errors ++ [e] }

/-- `binding_power` (infix binding powers). -/
def bindingPower (o : Operator) : Option (Nat × Nat) :=
  match o with
  | Operator.mul | Operator.div | Operator.mod => some (80, 81)
  | Operator.plus | Operator.minus => some (70, 71)
  | Operator.lsh | Operator.rsh => some (60, 61)
  | Operator.lt | Operator.gt | Operator.le | Operator.ge => some (50, 51)
  | Operator.eq | Operator.ne => some (45, 46)
  | Operator.and => some (40, 41)
  | Operator.bitXor => some (35, 36)
  | Operator.or => some (30, 31)
  | Operator.logAnd => some (25, 26)
  | Operator.logOr => some (20, 21)
  | _ => none

/-- The `?` entry of `infix_binding_power` in the source. -/
def ternaryBp : Nat × Nat := (10, 9)

/-- Which half of `Parser::parse_bp` is running: the prefix part (`bp`) or
the infix loop (`loop`, carrying the subtree built so far). -/
inductive PMode where
  | bp (minBp : Nat)
  | loop (minBp : Nat) (left : NodeId)
deriving DecidableEq

/-- `Parser::parse_bp` (both its prefix part and its infix loop, selected by
the mode).  The fuel parameter bounds the recursion depth; the parser
consumes at least one token before every recursive call, so `2 * input
length + 4` fuel is always enough.  Running out of fuel reports
`UnexpectedEof` (unreachable with adequate fuel; the arena-invariant
theorems below hold for every fuel). -/
def parseGo : Nat → PMode → PState → Except ParseError NodeId × PState
  | 0, _, s => (Except.error (ParseError.UnexpectedEof s.current.span), s)
  | fuel + 1, PMode.bp minBp, s =>
    match s.current.node with
    | Token.num n =>
      let s1 := pushNode (advance s) (ASTNode.Literal n)
      parseGo fuel (PMode.loop minBp s.arena.length) s1
    | Token.var =>
      let s1 := pushNode (advance s) ASTNode.Variable
      parseGo fuel (PMode.loop minBp s.arena.length) s1
    | Token.op o =>
      if o = Operator.lparen then
        match parseGo fuel (PMode.bp 0) (advance s) with
        | (Except.error e, s1) => (Except.error e, s1)
        | (Except.ok expr, s1) =>
          -- `if let Token::Op(Operator::Rparen) = *self.current` in the source
          if s1.current.node = Token.op Operator.rparen then
            parseGo fuel (PMode.loop minBp expr) (advance s1)
          else (Except.error (ParseError.UnmatchedParenthesis s1.current.span), s1)
      else if o = Operator.minus ∨ o = Operator.plus ∨ o = Operator.logNot ∨
          o = Operator.bitNot then
        -- prefix operators, right binding power 99
        match parseGo fuel (PMode.bp 99) (advance s) with
        | (Except.error e, s1) => (Except.error e, s1)
        | (Except.ok right, s1) =>
          if o = Operator.plus then parseGo fuel (PMode.loop minBp right) s1
          else
            -- push `Literal 0`, then `Binary(op, zero, right)`
            let z := s1.arena.length
            let s2 := pushNode s1 (ASTNode.Literal 0)
            let s3 := pushNode s2 (ASTNode.Binary o z right)
            parseGo fuel (PMode.loop minBp s2.arena.length) s3
      else (Except.error (ParseError.UnexpectedPrefix o s.current.span), s)
    | Token.err e =>
      let sp := s.current.span
      let s1 := advance (pushError s (ParseError.LexError e sp))
      let s2 := pushNode s1 (ASTNode.Error sp)
      parseGo fuel (PMode.loop minBp s1.arena.length) s2
    | Token.eof => (Except.error (ParseError.UnexpectedEof s.current.span), s)
  | fuel + 1, PMode.loop minBp left, s =>
    match s.current.node with
    | Token.eof => (Except.ok left, s)
    | Token.err e =>
      let sp := s.current.span
      (Except.ok left, advance (pushError s (ParseError.LexError e sp)))
    | Token.op o =>
      if o = Operator.question then
        if ternaryBp.1 < minBp then (Except.ok left, s)
        else
          match parseGo fuel (PMode.bp 0) (advance s) with
          | (Except.error e, s1) => (Except.error e, s1)
          | (Except.ok tb, s1) =>
            -- `if let Token::Op(Operator::Colon) = *self.current` in the source
            if s1.current.node = Token.op Operator.colon then
              match parseGo fuel (PMode.bp ternaryBp.2) (advance s1) with
              | (Except.error e, s2) => (Except.error e, s2)
              | (Except.ok fb, s2) =>
                let s3 := pushNode s2 (ASTNode.Ternary left tb fb)
                parseGo fuel (PMode.loop minBp s2.arena.length) s3
            else (Except.error (ParseError.ExpectedTernaryColon s1.current.span), s1)
      else
        match bindingPower o with
        | some (lBp, rBp) =>
          if lBp < minBp then (Except.ok left, s)
          else
            match parseGo fuel (PMode.bp rBp) (advance s) with
            | (Except.error e, s1) => (Except.error e, s1)
            | (Except.ok right, s1) =>
              let s2 := pushNode s1 (ASTNode.Binary o left right)
              parseGo fuel (PMode.loop minBp s1.arena.length) s2
        | none => (Except.ok left, s)
    | t => (Except.error (ParseError.ExpectedOperator t s.current.span), s)

/-- `Parser::parse_bp`, prefix entry point. -/
def parseBp (fuel minBp : Nat) (s : PState) : Except ParseError NodeId × PState :=
  parseGo fuel (PMode.bp minBp) s

/-- Fuel used by `compile` (always sufficient, see `parseBp`). -/
def compileFuel (src : String) : Nat := 2 * src.data.length + 4

/-- `Parser::parse`: run `parse_bp(0)` and combine the result with the
accumulated error list. -/
def runParse (fuel : Nat) (s : PState) : Except (List ParseError) NodeId × PState :=
  match parseBp fuel 0 s with
  | (Except.ok root, s1) =>
    if s1.errors = [] then (Except.ok root, s1) else (Except.error s1.errors, s1)
  | (Except.error e, s1) => (Except.error (s1.errors ++ [e]), s1)

/-- Full parser run on a source string (exposes the final parser state,
including the arena, exactly as `Parser::new(source, &mut nodes).parse()`
exposes `nodes`). -/
def compileFull (src : String) : Except (List ParseError) NodeId × PState :=
  runParse (compileFuel src) (pInit src)

/-- `src/parser.rs` `Beat`. -/
structure Beat where
  nodes : List ASTNode
  root : NodeId
deriving DecidableEq

/-- `Beat::compile`. -/
def Beat.compile (src : String) : Except (List ParseError) Beat :=
  match compileFull src with
  | (Except.ok root, s) => Except.ok ⟨s.arena, root⟩
  | (Except.error es, _) => Except.error es

/-! ## Evaluator (`src/parser.rs` `Beat::eval_node`, `Beat::eval`) -/

/-- Shift amount of `wrapping_shl`/`wrapping_shr`: `(r as u32) & 31`
(`r % 2^32` reduced mod `32`, which equals `r % 32` on `Int`). -/
def shiftAmt (r : Int) : Nat := (r % 32).toNat

/-- The operator dispatch inside `Beat::eval_node` for `Binary` nodes,
including the `_ => 0` catch-all of the source. -/
def applyBinop (o : Operator) (l r : Int) : Int :=
  match o with
  | Operator.plus => wrap32 (l + r)
  | Operator.minus => wrap32 (l - r)
  | Operator.mul => wrap32 (l * r)
  | Operator.div => if r = 0 then 0 else wrap32 (Int.tdiv l r)
  | Operator.mod => if r = 0 then 0 else wrap32 (Int.tmod l r)
  | Operator.and => Int.land l r
  | Operator.or => Int.lor l r
  | Operator.bitXor => Int.xor l r
  | Operator.lsh => wrap32 (l * 2 ^ shiftAmt r)
  | Operator.rsh => Int.fdiv l (2 ^ shiftAmt r)
  | Operator.logAnd => if l ≠ 0 ∧ r ≠ 0 then 1 else 0
  | Operator.logOr => if l ≠ 0 ∨ r ≠ 0 then 1 else 0
  | Operator.eq => if l = r then 1 else 0
  | Operator.ne => if l ≠ r then 1 else 0
  | Operator.gt => if r < l then 1 else 0
  | Operator.lt => if l < r then 1 else 0
  | Operator.ge => if r ≤ l then 1 else 0
  | Operator.le => if l ≤ r then 1 else 0
  | Operator.bitNot => -r - 1
  | Operator.logNot => if r = 0 then 1 else 0
  | _ => 0

/-- `Beat::eval_node`, recursion workhorse.  The Rust function recurses on
the child indices and indexes the arena unchecked; here the recursion is
bounded by descent on the node index (children of a node at index `id` are
guarded to lie strictly below `id`, so `id + 1` fuel always suffices — see
`evalGo_fuel`), with `0` on the branches that cannot occur for compiled
beats (out-of-bounds index or non-descending child, ruled out by
`compile_ok_inv`). -/
def evalGo (b : Beat) : Nat → NodeId → Int → Int
  | 0, _, _ => 0
  | fuel + 1, id, t =>
    match b.nodes[id]? with
    | some (ASTNode.Literal n) => n
    | some ASTNode.Variable => t
    | some (ASTNode.Binary o l r) =>
      if l < id ∧ r < id then
        applyBinop o (evalGo b fuel l t) (evalGo b fuel r t)
      else 0
    | some (ASTNode.Ternary c tb fb) =>
      if c < id ∧ tb < id ∧ fb < id then
        if evalGo b fuel c t ≠ 0 then evalGo b fuel tb t else evalGo b fuel fb t
      else 0
    | some (ASTNode.Error _) => 0
    | none => 0

/-- `Beat::eval_node`. -/
def Beat.eval_node (b : Beat) (id : NodeId) (t : Int) : Int :=
  evalGo b (id + 1) id t

/-- `Beat::eval`: the `u8` sample (`as u8` keeps the low 8 bits). -/
def Beat.eval (b : Beat) (t : Int) : Nat :=
  ((b.eval_node b.root t) % 256).toNat

/-! ## Event handler (`src/event.rs`) and audio command handling (`src/audio.rs`) -/

/-- `src/audio.rs` `AudioCommand`.  The `SetVolume` payload is an `f32`
volume, which no claim inspects, so it is not modelled. -/
inductive AudioCommand where
  | play
  | pause
  | setVolume
  | newBeat (b : Beat)
deriving DecidableEq

/-- `EventHandler::new_beat`: compile the source; on failure return the error
list (sending nothing), on success send a single `NewBeat` command.  The
second component is the list of commands sent on the audio channel. -/
def new_beat (src : String) : Except (List ParseError) Unit × List AudioCommand :=
  match Beat.compile src with
  | Except.error es => (Except.error es, [])
  | Except.ok b => (Except.ok (), [AudioCommand.newBeat b])

/-- The command callback in `audio::main`, restricted to its effect on the
active beat (`cs.beat.store` for `NewBeat`; `Play`/`Pause`/`SetVolume` touch
only the stream, not the beat). -/
def applyCommand (cur : Beat) : AudioCommand → Beat
  | AudioCommand.newBeat b => b
  | _ => cur

/-- Effect of a sequence of received commands on the active beat. -/
def applyCommands (cur : Beat) (cs : List AudioCommand) : Beat :=
  cs.foldl applyCommand cur

/-! ## The real-time process callback (`src/audio.rs` `on_process`)

The frame loop writes `n_frames` stereo frames.  Each iteration performs one
`state.beat.load()` (an acquire load of the `ArcSwap`), evaluates the loaded
beat at `t_write`, stores the sample in both channels, best-effort pushes it
onto the visualisation ring, and increments `t_write`.  Concurrent `NewBeat`
stores are modelled by the schedule `beatAt`, giving the value the atomic
pointer holds at the time of each successive load. -/

/-- State carried through the frame loop of `on_process`. -/
structure ProcSt where
  /-- the `t_write` counter (an `AtomicI32` in the source) -/
  tWrite : Int
  /-- capacity of the `rtrb` ring buffer -/
  ringCap : Nat
  /-- contents of the visualisation ring -/
  ring : List Nat
  /-- stereo frames written to the dequeued buffer so far -/
  slice : List (Nat × Nat)
  /-- how many `beat.load()` calls have happened in this invocation -/
  beatLoads : Nat
deriving DecidableEq

/-- One iteration of the frame loop in `on_process`. -/
def procFrame (beatAt : Nat → Beat) (st : ProcSt) : ProcSt :=
  let b := beatAt st.beatLoads
  let v := b.eval st.tWrite
  { tWrite := wrap32 (st.tWrite + 1)
    ringCap := st.ringCap
    ring := if st.ring.length < st.ringCap then st.ring ++ [v] else st.ring
    slice := st.slice ++ [(v, v)]
    beatLoads := st.beatLoads + 1 }

/-- The frame loop of `on_process` over `nFrames` frames. -/
def on_process (beatAt : Nat → Beat) (nFrames : Nat) (st : ProcSt) : ProcSt :=
  match nFrames with
  | 0 => st
  | n + 1 => on_process beatAt n (procFrame beatAt st)

/-- `t_write` after `i` frames (each frame stores `t_write + 1` wrapped). -/
def tIter (t : Int) : Nat → Int
  | 0 => t
  | i + 1 => tIter (wrap32 (t + 1)) i

/-- Specification of the frames produced by one `on_process` invocation:
frame `i` is evaluated with the beat observed by the `i`-th load. -/
def framesSpec (beatAt : Nat → Beat) (loads0 : Nat) (t0 : Int) (n : Nat) :
    List (Nat × Nat) :=
  (List.range n).map fun i =>
    ((beatAt (loads0 + i)).eval (tIter t0 i), (beatAt (loads0 + i)).eval (tIter t0 i))

/-! ## The line editor (`src/app/input.rs` `LineInput`) -/

/-- `LineInput`: a cursor and a `char` buffer; `cursor == buf.len()` means
appending at the end. -/
structure LineInput where
  cursor : Nat
  buf : List Char
deriving DecidableEq

/-- `LineInput::from_str`: the Rust source sets `cursor: s.len()`, the UTF-8
byte length of `s`, while `buf` holds the chars of `s`. -/
def LineInput.from_str (s : String) : LineInput :=
  ⟨s.utf8ByteSize, s.data⟩

/-- `LineInput::default`. -/
def LineInput.default : LineInput := ⟨0, []⟩

/-- `Vec::insert` at an index (panics — modelled as `none` — if the index
exceeds the length). -/
def listInsert (i : Nat) (c : Char) (l : List Char) : Option (List Char) :=
  if i ≤ l.length then some (l.take i ++ [c] ++ l.drop i) else none

/-- `LineInput::add`: insert at the cursor, then move right; `none` models the
`Vec::insert` panic when `cursor > buf.len()`. -/
def LineInput.add (li : LineInput) (c : Char) : Option LineInput :=
  match listInsert li.cursor c li.buf with
  | some buf1 => some ⟨li.cursor + 1, buf1⟩
  | none => none

/-- `Vec::remove` at an index (panics — modelled as `none` — if out of bounds). -/
def listRemove (i : Nat) (l : List Char) : Option (List Char) :=
  if i < l.length then some (l.take i ++ l.drop (i + 1)) else none

/-- `LineInput::remove`: delete the char before the cursor; no-op at the start
or on an empty buffer; `none` models the `Vec::remove` panic when
`cursor - 1 ≥ buf.len()`. -/
def LineInput.remove (li : LineInput) : Option LineInput :=
  if li.buf = [] ∨ li.cursor = 0 then some li
  else
    match listRemove (li.cursor - 1) li.buf with
    | some buf1 => some ⟨li.cursor - 1, buf1⟩
    | none => none

/-- `LineInput::shift_left` (saturating). -/
def LineInput.shift_left (li : LineInput) (count : Nat) : LineInput :=
  ⟨li.cursor - count, li.buf⟩

/-- `LineInput::shift_right` (clamped to the end). -/
def LineInput.shift_right (li : LineInput) (count : Nat) : LineInput :=
  ⟨min (li.cursor + count) li.buf.length, li.buf⟩

/-- The `while` loop of `LineInput::jump_left`: walk `i` down while the char
before it is not whitespace. -/
def jumpLeftFrom (buf : List Char) : Nat → Nat
  | 0 => 0
  | i + 1 =>
    if rustIsWhitespace (buf.getD i ' ') then i + 1 else jumpLeftFrom buf i

/-- `LineInput::jump_left`. -/
def LineInput.jump_left (li : LineInput) : LineInput :=
  ⟨jumpLeftFrom li.buf (min (li.cursor - 1) li.buf.length), li.buf⟩

/-- The `while` loop of `LineInput::jump_right`: walk `i` up while below the
end and the char before `i` is not whitespace. -/
def jumpRightFrom (buf : List Char) (i : Nat) : Nat :=
  if h : i < buf.length ∧ ¬rustIsWhitespace (buf.getD (i - 1) ' ') then
    jumpRightFrom buf (i + 1)
  else i
termination_by buf.length - i
decreasing_by
  omega

/-- `LineInput::jump_right`. -/
def LineInput.jump_right (li : LineInput) : LineInput :=
  ⟨jumpRightFrom li.buf (min (li.cursor + 1) li.buf.length), li.buf⟩

/-- `LineInput::at_end`. -/
def LineInput.at_end (li : LineInput) : Bool := li.cursor = li.buf.length

/-- `LineInput::at_start`. -/
def LineInput.at_start (li : LineInput) : Bool := li.cursor = 0

/-- The documented invariant of `LineInput`: the cursor never passes the end
of the buffer (so rendering, which indexes `buf[cursor]` when not `at_end`,
stays in bounds). -/
def LineInput.inv (li : LineInput) : Prop := li.cursor ≤ li.buf.length

/-! ## Arena invariants

`push_node` only ever appends, and every `Binary`/`Ternary` node is pushed
after its children, so child indices always point strictly below the node
(`arenaFwd`).  An `Error` node is only pushed together with a recorded
diagnostic, so the number of `Error` nodes never exceeds the number of
accumulated errors (`errCount`). -/

/-- Is this node an `ASTNode::Error`? -/
def isErrNode : ASTNode → Bool
  | ASTNode.Error _ => true
  | _ => false

/-- Number of `Error` nodes in an arena. -/
def errCount (a : List ASTNode) : Nat := (a.filter isErrNode).length

/-- Children of a node at index `i` point strictly below `i`. -/
def childOk (n : ASTNode) (i : Nat) : Prop :=
  match n with
  | ASTNode.Binary _ l r => l < i ∧ r < i
  | ASTNode.Ternary c t f => c < i ∧ t < i ∧ f < i
  | _ => True

/-- Forward-only child references: every node's children lie strictly below it. -/
def arenaFwd (a : List ASTNode) : Prop :=
  ∀ i n, a[i]? = some n → childOk n i

theorem arenaFwd_nil : arenaFwd [] := by
  intro i n h
  simp at h

theorem arenaFwd_push {a : List ASTNode} {n : ASTNode}
    (ha : arenaFwd a) (hn : childOk n a.length) : arenaFwd (a ++ [n]) := by
  intro i m h
  rcases lt_trichotomy i a.length with hi | hi | hi
  · rw [List.getElem?_append, if_pos hi] at h
    exact ha i m h
  · subst hi
    rw [List.getElem?_concat_length] at h
    cases h
    exact hn
  · rw [List.getElem?_eq_none (by simp; omega)] at h
    cases h

theorem errCount_push (a : List ASTNode) (n : ASTNode) :
    errCount (a ++ [n]) = errCount a + (if isErrNode n then 1 else 0) := by
  unfold errCount
  rw [List.filter_append]
  by_cases h : isErrNode n
  · simp [List.filter, h]
  · simp [List.filter, h]

/-- Relation between parser states across a parsing step: the arena only
grows, forward child references are preserved, and the error-node count stays
bounded by the diagnostics count. -/
def Step (s t : PState) : Prop :=
  s.arena.length ≤ t.arena.length ∧
  (arenaFwd s.arena → arenaFwd t.arena) ∧
  (errCount s.arena ≤ s.errors.length → errCount t.arena ≤ t.errors.length)

theorem step_rfl {s : PState} : Step s s :=
  ⟨le_refl _, id, id⟩

theorem step_trans {s t u : PState} (h1 : Step s t) (h2 : Step t u) : Step s u :=
  ⟨le_trans h1.1 h2.1, fun h => h2.2.1 (h1.2.1 h), fun h => h2.2.2 (h1.2.2 h)⟩

theorem step_advance {s : PState} : Step s (advance s) := step_rfl

theorem step_pushError {s : PState} {e : ParseError} : Step s (pushError s e) := by
  refine ⟨le_refl _, id, fun h => ?_⟩
  simp [pushError]
  omega

theorem step_pushNode {s : PState} {n : ASTNode}
    (hn : childOk n s.arena.length) (he : isErrNode n = false) :
    Step s (pushNode s n) := by
  refine ⟨?_, fun h => ?_, fun h => ?_⟩
  · simp [pushNode]
  · exact arenaFwd_push h hn
  · show errCount (s.arena ++ [n]) ≤ _
    rw [errCount_push, he]
    simpa [pushNode] using h

/-- The combined step of the lexer-error recovery path in `parse_bp`: record
the diagnostic, advance, and push an `Error` node. -/
theorem step_pushErrRecover {s : PState} {e : ParseError} {sp : Span} :
    Step s (pushNode (advance (pushError s e)) (ASTNode.Error sp)) := by
  refine ⟨?_, fun h => ?_, fun h => ?_⟩
  · simp [pushNode, advance, pushError]
  · exact arenaFwd_push h trivial
  · show errCount (s.arena ++ [ASTNode.Error sp]) ≤ _
    rw [errCount_push]
    simp [isErrNode, pushNode, advance, pushError]
    omega

/-- Post-condition of a `parse_bp`/loop call: the state stepped, and a
returned node id is a valid arena index. -/
def Post (s : PState) (r : Except ParseError NodeId × PState) : Prop :=
  Step s r.2 ∧ ∀ id, r.1 = Except.ok id → id < r.2.arena.length

theorem post_comp {s s1 : PState} {r : Except ParseError NodeId × PState}
    (h1 : Step s s1) (h2 : Post s1 r) : Post s r :=
  ⟨step_trans h1 h2.1, h2.2⟩

theorem post_err {s s1 : PState} {e : ParseError} (h : Step s s1) :
    Post s (Except.error e, s1) :=
  ⟨h, fun _ h => by cases h⟩

theorem pushNode_length (s : PState) (n : ASTNode) :
    (pushNode s n).arena.length = s.arena.length + 1 := by
  simp [pushNode]

/-- Precondition of a `parseGo` mode: the infix loop requires the subtree
built so far to be a valid arena index. -/
def ModePre : PMode → PState → Prop
  | PMode.bp _, _ => True
  | PMode.loop _ left, s => left < s.arena.length

/-- The structural walk of `parse_bp`: every call only grows the arena,
preserves forward-only child references, keeps the `Error`-node count below
the diagnostics count, and returns valid node ids. -/
theorem parseGo_walk (fuel : Nat) :
    ∀ mode s, ModePre mode s → Post s (parseGo fuel mode s) := by
  induction fuel with
  | zero =>
    intro mode s _
    simp only [parseGo]
    exact post_err step_rfl
  | succ n ih =>
    intro mode s hpre
    cases mode with
    | bp minBp =>
      simp only [parseGo]
      split
      -- Token::Number
      · refine post_comp (step_trans step_advance (step_pushNode ?_ ?_))
          (ih (PMode.loop minBp s.arena.length) _ ?_)
        · exact trivial
        · rfl
        · simp [ModePre, pushNode, advance]
      -- Token::Variable
      · refine post_comp (step_trans step_advance (step_pushNode ?_ ?_))
          (ih (PMode.loop minBp s.arena.length) _ ?_)
        · exact trivial
        · rfl
        · simp [ModePre, pushNode, advance]
      -- Token::Op
      · rename_i o heqTok
        by_cases ho : o = Operator.lparen
        · rw [if_pos ho]
          split
          · rename_i e s1 heq
            have hpost := ih (PMode.bp 0) (advance s) trivial
            rw [heq] at hpost
            exact post_err (step_trans step_advance hpost.1)
          · rename_i expr s1 heq
            have hpost := ih (PMode.bp 0) (advance s) trivial
            rw [heq] at hpost
            by_cases hrp : s1.current.node = Token.op Operator.rparen
            · rw [if_pos hrp]
              exact post_comp (step_trans step_advance (step_trans hpost.1 step_advance))
                (ih (PMode.loop minBp expr) (advance s1) (hpost.2 expr rfl))
            · rw [if_neg hrp]
              exact post_err (step_trans step_advance hpost.1)
        · rw [if_neg ho]
          by_cases hpre2 : o = Operator.minus ∨ o = Operator.plus ∨
              o = Operator.logNot ∨ o = Operator.bitNot
          · rw [if_pos hpre2]
            split
            · rename_i e s1 heq
              have hpost := ih (PMode.bp 99) (advance s) trivial
              rw [heq] at hpost
              exact post_err (step_trans step_advance hpost.1)
            · rename_i right s1 heq
              have hpost := ih (PMode.bp 99) (advance s) trivial
              rw [heq] at hpost
              have hr : right < s1.arena.length := hpost.2 right rfl
              by_cases hplus : o = Operator.plus
              · rw [if_pos hplus]
                exact post_comp (step_trans step_advance hpost.1)
                  (ih (PMode.loop minBp right) s1 hr)
              · rw [if_neg hplus]
                have hstep2 : Step s1 (pushNode s1 (ASTNode.Literal 0)) :=
                  step_pushNode trivial rfl
                have hstep3 : Step (pushNode s1 (ASTNode.Literal 0))
                    (pushNode (pushNode s1 (ASTNode.Literal 0))
                      (ASTNode.Binary o s1.arena.length right)) := by
                  refine step_pushNode ?_ rfl
                  refine ⟨?_, ?_⟩ <;> simp only [pushNode_length]
                  · exact Nat.lt_succ_self _
                  · exact Nat.lt_succ_of_lt hr
                refine post_comp (step_trans step_advance (step_trans hpost.1
                  (step_trans hstep2 hstep3))) (ih (PMode.loop minBp _) _ ?_)
                show (pushNode s1 (ASTNode.Literal 0)).arena.length < _
                simp only [pushNode_length]
                exact Nat.lt_succ_self _
          · rw [if_neg hpre2]
            exact post_err step_rfl
      -- Token::Err
      · refine post_comp step_pushErrRecover (ih (PMode.loop minBp _) _ ?_)
        simp [ModePre, pushNode, advance, pushError]
      -- Token::Eof
      · exact post_err step_rfl
    | loop minBp left =>
      have hl : left < s.arena.length := hpre
      simp only [parseGo]
      split
      -- Token::Eof
      · exact ⟨step_rfl, fun id h => by cases h; exact hl⟩
      -- Token::Err
      · exact ⟨step_trans step_pushError step_advance, fun id h => by cases h; exact hl⟩
      -- Token::Op
      · rename_i o heqTok
        by_cases hq : o = Operator.question
        · rw [if_pos hq]
          by_cases hbp1 : ternaryBp.1 < minBp
          · rw [if_pos hbp1]
            exact ⟨step_rfl, fun id h => by cases h; exact hl⟩
          · rw [if_neg hbp1]
            split
            · rename_i e s1 heq1
              have hpost1 := ih (PMode.bp 0) (advance s) trivial
              rw [heq1] at hpost1
              exact post_err (step_trans step_advance hpost1.1)
            · rename_i tb s1 heq1
              have hpost1 := ih (PMode.bp 0) (advance s) trivial
              rw [heq1] at hpost1
              have htb : tb < s1.arena.length := hpost1.2 tb rfl
              by_cases hcol : s1.current.node = Token.op Operator.colon
              · rw [if_pos hcol]
                split
                · rename_i e s2 heq2
                  have hpost2 := ih (PMode.bp ternaryBp.2) (advance s1) trivial
                  rw [heq2] at hpost2
                  exact post_err (step_trans step_advance (step_trans hpost1.1
                    (step_trans step_advance hpost2.1)))
                · rename_i fb s2 heq2
                  have hpost2 := ih (PMode.bp ternaryBp.2) (advance s1) trivial
                  rw [heq2] at hpost2
                  have hfb : fb < s2.arena.length := hpost2.2 fb rfl
                  have hlen1 : s.arena.length ≤ s1.arena.length := hpost1.1.1
                  have hlen2 : s1.arena.length ≤ s2.arena.length := hpost2.1.1
                  have hstep3 : Step s2 (pushNode s2 (ASTNode.Ternary left tb fb)) := by
                    refine step_pushNode ?_ rfl
                    exact ⟨lt_of_lt_of_le hl (le_trans hlen1 hlen2),
                      lt_of_lt_of_le htb hlen2, hfb⟩
                  refine post_comp (step_trans step_advance (step_trans hpost1.1
                    (step_trans step_advance (step_trans hpost2.1 hstep3))))
                    (ih (PMode.loop minBp _) _ ?_)
                  show s2.arena.length < _
                  simp only [pushNode_length]
                  exact Nat.lt_succ_self _
              · rw [if_neg hcol]
                exact post_err (step_trans step_advance hpost1.1)
        · rw [if_neg hq]
          split
          · rename_i lBp rBp hbp
            by_cases hlt : lBp < minBp
            · rw [if_pos hlt]
              exact ⟨step_rfl, fun id h => by cases h; exact hl⟩
            · rw [if_neg hlt]
              split
              · rename_i e s1 heq
                have hpost := ih (PMode.bp rBp) (advance s) trivial
                rw [heq] at hpost
                exact post_err (step_trans step_advance hpost.1)
              · rename_i right s1 heq
                have hpost := ih (PMode.bp rBp) (advance s) trivial
                rw [heq] at hpost
                have hr : right < s1.arena.length := hpost.2 right rfl
                have hlen1 : s.arena.length ≤ s1.arena.length := hpost.1.1
                have hstep2 : Step s1 (pushNode s1 (ASTNode.Binary o left right)) := by
                  refine step_pushNode ?_ rfl
                  exact ⟨lt_of_lt_of_le hl hlen1, hr⟩
                refine post_comp (step_trans step_advance (step_trans hpost.1 hstep2))
                  (ih (PMode.loop minBp _) _ ?_)
                show s1.arena.length < _
                simp only [pushNode_length]
                exact Nat.lt_succ_self _
          · exact ⟨step_rfl, fun id h => by cases h; exact hl⟩
      -- other tokens: ExpectedOperator
      · exact post_err step_rfl

/-- Characterisation of a successful `Beat::compile`: the root parse
succeeded and the accumulated error list was empty. -/
theorem compile_ok_elim {src : String} {b : Beat} (h : Beat.compile src = Except.ok b) :
    ∃ s', parseBp (compileFuel src) 0 (pInit src) = (Except.ok b.root, s') ∧
      s'.errors = [] ∧ s'.arena = b.nodes := by
  unfold Beat.compile at h
  split at h
  · rename_i root s heqCF
    injection h with h
    subst h
    unfold compileFull runParse at heqCF
    split at heqCF
    · rename_i root1 s1 heqP
      split at heqCF
      · rename_i hemp
        injection heqCF with h1 h2
        injection h1 with h1
        subst h1
        subst h2
        exact ⟨s1, heqP, hemp, rfl⟩
      · injection heqCF with h1 h2
        cases h1
    · rename_i e s1 heqP
      injection heqCF with h1 h2
      cases h1
  · rename_i es s heqCF
    cases h

/-- The arena of every successfully compiled `Beat` has a valid root index,
forward-only child references, and no `Error` nodes. -/
theorem compile_ok_inv {src : String} {b : Beat} (h : Beat.compile src = Except.ok b) :
    b.root < b.nodes.length ∧ arenaFwd b.nodes ∧ errCount b.nodes = 0 := by
  obtain ⟨s', hP, hemp, harena⟩ := compile_ok_elim h
  have hwalk := parseGo_walk (compileFuel src) (PMode.bp 0) (pInit src) trivial
  rw [show parseGo (compileFuel src) (PMode.bp 0) (pInit src) = parseBp (compileFuel src) 0 (pInit src) from rfl, hP] at hwalk
  have hroot : b.root < s'.arena.length := hwalk.2 b.root rfl
  have hfwd : arenaFwd s'.arena := hwalk.1.2.1 arenaFwd_nil
  have herr : errCount s'.arena ≤ s'.errors.length := hwalk.1.2.2 (by simp [pInit, errCount])
  rw [harena] at hroot hfwd herr
  rw [hemp] at herr
  exact ⟨hroot, hfwd, Nat.le_zero.mp (by simpa using herr)⟩

/-- No `Error` node is a member of a successfully compiled arena. -/
theorem compile_no_error_nodes {src : String} {b : Beat}
    (h : Beat.compile src = Except.ok b) : ∀ sp, ASTNode.Error sp ∉ b.nodes := by
  intro sp hmem
  have h0 := (compile_ok_inv h).2.2
  unfold errCount at h0
  rw [List.length_eq_zero] at h0
  have := List.filter_eq_nil.mp h0 _ hmem
  simp [isErrNode] at this

/-- Fuel irrelevance for the evaluator: any fuel above the node index gives
the same value, so `eval_node`'s choice of `id + 1` is canonical. -/
theorem evalGo_fuel (b : Beat) :
    ∀ f1 f2 id t, id < f1 → id < f2 → evalGo b f1 id t = evalGo b f2 id t := by
  intro f1
  induction f1 with
  | zero =>
    intro f2 id t h1 _
    exact absurd h1 (Nat.not_lt_zero id)
  | succ g ihg =>
    intro f2 id t hid1 hid2
    rcases f2 with _ | f
    · exact absurd hid2 (Nat.not_lt_zero id)
    · rcases hnode : b.nodes[id]? with _ | node
      · simp only [evalGo, hnode]
      · cases node with
        | Literal n => simp only [evalGo, hnode]
        | Variable => simp only [evalGo, hnode]
        | Error sp => simp only [evalGo, hnode]
        | Binary o l r =>
          simp only [evalGo, hnode]
          have hle1 : id ≤ g := Nat.lt_succ_iff.mp hid1
          have hle2 : id ≤ f := Nat.lt_succ_iff.mp hid2
          by_cases hg : l < id ∧ r < id
          · rw [if_pos hg, if_pos hg,
              ihg f l t (lt_of_lt_of_le hg.1 hle1) (lt_of_lt_of_le hg.1 hle2),
              ihg f r t (lt_of_lt_of_le hg.2 hle1) (lt_of_lt_of_le hg.2 hle2)]
          · rw [if_neg hg, if_neg hg]
        | Ternary c tb fb =>
          simp only [evalGo, hnode]
          have hle1 : id ≤ g := Nat.lt_succ_iff.mp hid1
          have hle2 : id ≤ f := Nat.lt_succ_iff.mp hid2
          by_cases hg : c < id ∧ tb < id ∧ fb < id
          · rw [if_pos hg, if_pos hg,
              ihg f c t (lt_of_lt_of_le hg.1 hle1) (lt_of_lt_of_le hg.1 hle2),
              ihg f tb t (lt_of_lt_of_le hg.2.1 hle1) (lt_of_lt_of_le hg.2.1 hle2),
              ihg f fb t (lt_of_lt_of_le hg.2.2 hle1) (lt_of_lt_of_le hg.2.2 hle2)]
          · rw [if_neg hg, if_neg hg]

/-- One-step unfolding of `eval_node` on a `Binary` node with descending
children: exactly the shape of the Rust recursion. -/
theorem eval_node_binary {b : Beat} {id : NodeId} {o : Operator} {l r : NodeId}
    (hnode : b.nodes[id]? = some (ASTNode.Binary o l r)) (hl : l < id) (hr : r < id)
    (t : Int) :
    b.eval_node id t = applyBinop o (b.eval_node l t) (b.eval_node r t) := by
  unfold Beat.eval_node
  simp only [evalGo, hnode]
  rw [if_pos ⟨hl, hr⟩,
    evalGo_fuel b id (l + 1) l t hl (Nat.lt_succ_self l),
    evalGo_fuel b id (r + 1) r t hr (Nat.lt_succ_self r)]
  rfl

/-- Unrolling `framesSpec` by one frame. -/
theorem framesSpec_succ (beatAt : Nat → Beat) (l0 : Nat) (t0 : Int) (n : Nat) :
    framesSpec beatAt l0 t0 (n + 1) =
      ((beatAt l0).eval t0, (beatAt l0).eval t0) ::
        framesSpec beatAt (l0 + 1) (wrap32 (t0 + 1)) n := by
  unfold framesSpec
  rw [List.range_succ_eq_map]
  simp only [List.map_cons, List.map_map]
  congr 1
  apply List.map_congr_left
  intro i _
  have h1 : l0 + (i + 1) = l0 + 1 + i := by omega
  show ((beatAt (l0 + (i + 1))).eval (tIter t0 (i + 1)),
      (beatAt (l0 + (i + 1))).eval (tIter t0 (i + 1))) = _
  rw [h1]
  rfl

/-! ## Claims -/

/-- C1, counterexample: the claim says `Beat::compile("")` succeeds with an
empty arena and evaluates to 0; in fact compilation of the empty source does
not succeed at all (`parse_bp` meets `Eof` in prefix position and errors). -/
theorem c1_empty_source_claim_false : ¬ ∃ b, Beat.compile "" = Except.ok b := by
  rintro ⟨b, hb⟩
  rw [show Beat.compile "" = Except.error [ParseError.UnexpectedEof ⟨0, 0, 0⟩] from rfl]
    at hb
  cases hb

/-- C1, amended: `Beat::compile("")` fails, returning exactly one error, an
`UnexpectedEof` whose span is line 0, column 0. -/
theorem c1_empty_source_rejected :
    Beat.compile "" = Except.error [ParseError.UnexpectedEof ⟨0, 0, 0⟩] := rfl

/-- C2: division and remainder by zero are defined to 0 — any `Binary` `Div`
or `Mod` node whose right child evaluates to 0 evaluates to 0 (never raises);
in particular `compile("t/0")` succeeds and the resulting beat evaluates to 0
at every `t`. -/
theorem c2_div_mod_by_zero :
    (∀ (b : Beat) (id : NodeId) (o : Operator) (l r : NodeId) (t : Int),
      b.nodes[id]? = some (ASTNode.Binary o l r) →
      (o = Operator.div ∨ o = Operator.mod) →
      b.eval_node r t = 0 → b.eval_node id t = 0) ∧
    Beat.compile "t/0" =
      Except.ok ⟨[ASTNode.Variable, ASTNode.Literal 0, ASTNode.Binary Operator.div 0 1], 2⟩ ∧
    (∀ b, Beat.compile "t/0" = Except.ok b → ∀ t : Int, b.eval t = 0) := by
  refine ⟨?_, rfl, ?_⟩
  · intro b id o l r t hnode ho hr0
    unfold Beat.eval_node
    simp only [evalGo, hnode]
    by_cases hg : l < id ∧ r < id
    · rw [if_pos hg,
        evalGo_fuel b id (r + 1) r t hg.2 (Nat.lt_succ_self r)]
      have hz : evalGo b (r + 1) r t = 0 := hr0
      rw [hz]
      rcases ho with ho | ho <;> rw [ho] <;> simp [applyBinop]
    · rw [if_neg hg]
  · intro b hb t
    rw [show Beat.compile "t/0" =
      Except.ok ⟨[ASTNode.Variable, ASTNode.Literal 0,
        ASTNode.Binary Operator.div 0 1], 2⟩ from rfl] at hb
    injection hb with hb
    subst hb
    rfl

/-- C2 witness: the general division-by-zero fact applied to the compiled
`"t/0"` beat at concrete inputs. -/
theorem c2_div_mod_by_zero_witness :
    Beat.eval_node ⟨[ASTNode.Variable, ASTNode.Literal 0,
      ASTNode.Binary Operator.div 0 1], 2⟩ 2 12345 = 0 ∧
    Beat.eval ⟨[ASTNode.Variable, ASTNode.Literal 0,
      ASTNode.Binary Operator.div 0 1], 2⟩ 12345 = 0 := by
  constructor
  · exact c2_div_mod_by_zero.1 _ 2 Operator.div 0 1 12345 rfl (Or.inl rfl) rfl
  · exact c2_div_mod_by_zero.2.2 _ rfl 12345

/-- C4, counterexample: the claim says `Beat::compile("(")` reports a single
`UnmatchedParenthesis` at column 0; in fact the inner expression parse meets
`Eof` first and the single reported error is `UnexpectedEof` at column 1. -/
theorem c4_lparen_claim_false :
    ¬ ∃ sp : Span, Beat.compile "(" = Except.error [ParseError.UnmatchedParenthesis sp] ∧
      sp.start = 0 := by
  rintro ⟨sp, h, _⟩
  rw [show Beat.compile "(" = Except.error [ParseError.UnexpectedEof ⟨0, 1, 1⟩] from rfl]
    at h
  simp at h

/-- C4, amended: `Beat::compile("(")` fails with exactly one error, an
`UnexpectedEof` at line 0, column 1 (the position just after the
parenthesis). -/
theorem c4_lparen_unexpected_eof :
    Beat.compile "(" = Except.error [ParseError.UnexpectedEof ⟨0, 1, 1⟩] := rfl

/-- C5: a numeric literal whose positive parse overflows `i32` saturates: the
lexer produces `Number(i32::MAX)` rather than an error token, and
`compile("0xFFFFFFFF")` succeeds with `Literal(INT32_MAX)`. -/
theorem c5_overflow_saturates :
    (∀ (radix : Nat) (ds : List Char), 2147483647 < digitsVal radix ds →
      mkNumberToken radix ds = Token.num 2147483647) ∧
    (lexNext ⟨"0xFFFFFFFF".data, 0, 0⟩).1 = ⟨Token.num 2147483647, ⟨0, 0, 9⟩⟩ ∧
    Beat.compile "0xFFFFFFFF" = Except.ok ⟨[ASTNode.Literal 2147483647], 0⟩ := by
  refine ⟨?_, rfl, rfl⟩
  intro radix ds h
  unfold mkNumberToken
  by_cases hds : ds = []
  · subst hds
    simp [digitsVal] at h
  · rw [if_neg hds, if_pos h]

/-- C5 witness: the saturation fact applied to the digit string of
`"0xFFFFFFFF"`. -/
theorem c5_overflow_saturates_witness :
    mkNumberToken 16 "FFFFFFFF".data = Token.num 2147483647 :=
  c5_overflow_saturates.1 16 "FFFFFFFF".data (by decide)

/-- C6: `Beat::compile("t + @")` fails with exactly one error,
`LexError(UnexpectedChar('@'))` at line 0, column 4, and the parser's arena
holds, in order, `Variable`, `Error(span)`, `Binary(Plus, 0, 1)`. -/
theorem c6_error_recovery :
    Beat.compile "t + @" =
      Except.error [ParseError.LexError (LexError.UnexpectedChar '@') ⟨0, 4, 4⟩] ∧
    (compileFull "t + @").2.arena =
      [ASTNode.Variable, ASTNode.Error ⟨0, 4, 4⟩, ASTNode.Binary Operator.plus 0 1] :=
  ⟨rfl, rfl⟩

/-- C3: a successfully compiled `Beat` contains zero `Error` nodes (every
`Error` push is paired with a recorded diagnostic, and success requires the
diagnostic list to be empty), and whenever the root parse succeeds with a
non-empty accumulated error list, `compile` still returns `Err` with exactly
those errors. -/
theorem c3_ok_beat_has_no_error_nodes (src : String) :
    (∀ b, Beat.compile src = Except.ok b → ∀ sp, ASTNode.Error sp ∉ b.nodes) ∧
    (∀ (root : NodeId) (s' : PState),
      parseBp (compileFuel src) 0 (pInit src) = (Except.ok root, s') →
      s'.errors ≠ [] → Beat.compile src = Except.error s'.errors) := by
  constructor
  · intro b hb
    exact compile_no_error_nodes hb
  · intro root s' hP hne
    unfold Beat.compile compileFull runParse
    rw [hP]
    simp [hne]

/-- C3 witness: applied to the compiled `"t"` (no `Error` nodes) and to
`"t + @"`, whose root parse succeeds while an error was accumulated, forcing
failure. -/
theorem c3_ok_beat_has_no_error_nodes_witness :
    (∀ sp, ASTNode.Error sp ∉ (⟨[ASTNode.Variable], 0⟩ : Beat).nodes) ∧
    Beat.compile "t + @" =
      Except.error (parseBp (compileFuel "t + @") 0 (pInit "t + @")).2.errors := by
  constructor
  · exact (c3_ok_beat_has_no_error_nodes "t").1 ⟨[ASTNode.Variable], 0⟩ rfl
  · exact (c3_ok_beat_has_no_error_nodes "t + @").2 2
      (parseBp (compileFuel "t + @") 0 (pInit "t + @")).2 rfl (by decide)

/-- C7, counterexample: the claim says the active beat pointer is
acquire-loaded exactly once per `on_process` invocation, so every frame of a
buffer sees the same beat and a replacement is first observed at a buffer
boundary.  In the source the load sits inside the per-frame loop: a 2-frame
invocation performs 2 loads, and with a store landing between the two loads
the two frames of the same buffer are produced by different beats. -/
theorem c7_single_load_claim_false :
    (on_process (fun i => if i = 0 then ⟨[ASTNode.Literal 0], 0⟩
        else ⟨[ASTNode.Literal 1], 0⟩) 2 ⟨0, 64000, [], [], 0⟩).beatLoads = 2 ∧
    ¬ ((on_process (fun i => if i = 0 then ⟨[ASTNode.Literal 0], 0⟩
        else ⟨[ASTNode.Literal 1], 0⟩) 2 ⟨0, 64000, [], [], 0⟩).beatLoads = 1) ∧
    (on_process (fun i => if i = 0 then ⟨[ASTNode.Literal 0], 0⟩
        else ⟨[ASTNode.Literal 1], 0⟩) 2 ⟨0, 64000, [], [], 0⟩).slice = [(0, 0), (1, 1)] ∧
    Beat.compile "0" = Except.ok ⟨[ASTNode.Literal 0], 0⟩ ∧
    Beat.compile "1" = Except.ok ⟨[ASTNode.Literal 1], 0⟩ :=
  ⟨rfl, by decide, rfl, rfl, rfl⟩

/-- C7, amended: `on_process` loads the active beat pointer once per frame —
`n` loads for an `n`-frame buffer — and frame `i` is evaluated with the beat
observed by the `i`-th load, so a concurrently stored beat may first be
observed mid-buffer, at a frame boundary (each individual frame still uses a
single coherent beat). -/
theorem c7_one_load_per_frame (beatAt : Nat → Beat) (n : Nat) (st : ProcSt) :
    (on_process beatAt n st).beatLoads = st.beatLoads + n ∧
    (on_process beatAt n st).slice =
      st.slice ++ framesSpec beatAt st.beatLoads st.tWrite n := by
  induction n generalizing st with
  | zero =>
    refine ⟨rfl, ?_⟩
    simp [on_process, framesSpec]
  | succ m ih =>
    obtain ⟨ih1, ih2⟩ := ih (procFrame beatAt st)
    constructor
    · show (on_process beatAt m (procFrame beatAt st)).beatLoads = _
      rw [ih1]
      simp only [procFrame]
      omega
    · show (on_process beatAt m (procFrame beatAt st)).slice = _
      rw [ih2, framesSpec_succ]
      simp only [procFrame, List.append_assoc, List.singleton_append]

/-- C8: when compilation of the submitted source fails, `new_beat` returns
the parse-error list and sends no command on the audio channel, so the
active beat of the audio thread is unchanged and the previous beat keeps
playing. -/
theorem c8_new_beat_error_sends_nothing (src : String) (es : List ParseError)
    (h : Beat.compile src = Except.error es) :
    new_beat src = (Except.error es, []) ∧
    (∀ cur : Beat, applyCommands cur (new_beat src).2 = cur) := by
  have hnb : new_beat src = (Except.error es, []) := by
    unfold new_beat
    rw [h]
  refine ⟨hnb, fun cur => ?_⟩
  rw [hnb]
  rfl

/-- C8 witness: submitting the failing source `"("` returns its error list
and leaves any active beat untouched. -/
theorem c8_new_beat_error_sends_nothing_witness :
    new_beat "(" = (Except.error [ParseError.UnexpectedEof ⟨0, 1, 1⟩], []) ∧
    applyCommands ⟨[ASTNode.Literal 0], 0⟩ (new_beat "(").2 = ⟨[ASTNode.Literal 0], 0⟩ := by
  have h := c8_new_beat_error_sends_nothing "(" [ParseError.UnexpectedEof ⟨0, 1, 1⟩] rfl
  exact ⟨h.1, h.2 ⟨[ASTNode.Literal 0], 0⟩⟩

/-- C9: every successfully compiled `Beat` has a root index inside the arena
and forward-only child references (each `Binary`/`Ternary` child id lies
strictly below the node's own index), the invariant that makes the recursive
`eval_node` total and in-bounds (its descent on the node index, see `evalGo`
and `evalGo_fuel`, never hits the out-of-range fallback branches). -/
theorem c9_forward_only_arena (src : String) (b : Beat)
    (h : Beat.compile src = Except.ok b) :
    b.root < b.nodes.length ∧ arenaFwd b.nodes :=
  ⟨(compile_ok_inv h).1, (compile_ok_inv h).2.1⟩

/-- C9 witness: the forward-reference invariant on the compiled `"t/0"`. -/
theorem c9_forward_only_arena_witness :
    (2 : NodeId) < 3 ∧
    arenaFwd [ASTNode.Variable, ASTNode.Literal 0, ASTNode.Binary Operator.div 0 1] :=
  c9_forward_only_arena "t/0"
    ⟨[ASTNode.Variable, ASTNode.Literal 0, ASTNode.Binary Operator.div 0 1], 2⟩ rfl

/-- C10: the claim states `cursor ≤ buf.len()` for every `LineInput`
reachable from `Default` or `from_str`.  The intent matches the widget's own
documentation ("won't crash") and the rendering code, but `from_str` sets the
cursor to the UTF-8 *byte* length of the string while `buf` holds its
*chars*: on `"é"` (two bytes, one char) the cursor lands at 2 in a length-1
buffer, `at_end` is false (so rendering would index `buf[2]` out of bounds),
and a subsequent `add` hits the `Vec::insert` panic path. -/
theorem c10_from_str_cursor_out_of_bounds :
    (LineInput.from_str "é").cursor = 2 ∧
    (LineInput.from_str "é").buf.length = 1 ∧
    ¬ (LineInput.from_str "é").inv ∧
    (LineInput.from_str "é").at_end = false ∧
    (LineInput.from_str "é").add 'x' = none := by
  refine ⟨rfl, rfl, ?_, rfl, rfl⟩
  intro h
  unfold LineInput.inv at h
  rw [show (LineInput.from_str "é").cursor = 2 from rfl,
    show (LineInput.from_str "é").buf.length = 1 from rfl] at h
  omega
